import Mathlib

/-!
Shallow embedding of the generational-index allocator from `src/vec_based.rs`
(`GenIndex`, `GenIndexEntry`, `GenIndexAllocator` with the operations
`new`, `with_capacity`, `allocate`, `deallocate`, `get`, `get_mut`, `set`),
together with the reachability relation generated by its public operations,
and theorems settling the specification claims about it.
-/

namespace GenInds

/-- Handle type of the allocator (`GenIndex` in `src/vec_based.rs`): a slot
position `index` (Rust `usize`) and a `generation` counter (Rust `u32`).
Both are modelled as `Nat`; the source bumps the generation with Rust's
`+= 1`, which panics on overflow in debug builds, so no wrap-around is
modelled. -/
structure GenIndex where
  index : Nat
  generation : Nat
deriving DecidableEq, Repr

/-- One slot of the table (`GenIndexEntry<T>`): the key that currently
validates access to this position, and the optionally-present stored value. -/
structure GenIndexEntry (T : Type) where
  key : GenIndex
  value : Option T
deriving DecidableEq, Repr

/-- The allocator (`GenIndexAllocator<T>`): the slot table `entries`
(a Rust `Vec`, modelled as a `List` indexed from the front) and the
free-list `free_indices` (a Rust `Vec` used as a stack via `push`/`pop`
at its end; modelled as a `List` whose HEAD is the top of the stack, so
`push x` is `x :: l` and `pop` takes the head). -/
structure GenIndexAllocator (T : Type) where
  entries : List (GenIndexEntry T)
  free_indices : List Nat
deriving DecidableEq, Repr

/-- The error outcomes of the fallible operations. In the source every
error is a distinct `simple_error` message string; each distinct message
is one constructor here, so the kinds stay distinguishable. -/
inductive Err where
  /-- `allocate`: "Could not find free index that should exist" (INTERNAL). -/
  | allocInternal
  /-- `deallocate`: "Index not found" (NOT_FOUND). -/
  | deallocNotFound
  /-- `deallocate`: "Wrong generation" (STALE_HANDLE). -/
  | deallocWrongGeneration
  /-- `set`: "Entry for key not found" (NOT_FOUND). -/
  | setNotFound
  /-- `set`: "Entry exists but generation does not match" (STALE_HANDLE). -/
  | setWrongGeneration
  /-- `set`: "Entry to overwrite is empty but should not be" (OVERWRITE_EMPTY). -/
  | setOverwriteEmpty
deriving DecidableEq, Repr

namespace GenIndexAllocator

set_option linter.unusedVariables false in
/-- `GenIndexAllocator::with_capacity`: empty table, empty free-list.
The `capacity` argument only pre-reserves heap space in the source
(`Vec::with_capacity`); it does not affect the logical state. -/
def with_capacity (T : Type) (capacity : Nat) : GenIndexAllocator T :=
  { entries := [], free_indices := [] }

/-- `GenIndexAllocator::new`: `with_capacity(100)`. -/
def new (T : Type) : GenIndexAllocator T :=
  with_capacity T 100

/-- `GenIndexAllocator::allocate`. Pops the free-list first (a Rust `Vec::pop`,
so the pop has already happened when the defensive lookup runs, which is why
the INTERNAL error branch returns the state with the free-list already
popped); on an empty free-list it appends a brand-new slot with generation 0.
Returns the `Result` together with the post-call state (`&mut self`). -/
def allocate (a : GenIndexAllocator T) (value : T) :
    Except Err GenIndex × GenIndexAllocator T :=
  match a.free_indices with
  | [] =>
      let new_key : GenIndex := { index := a.entries.length, generation := 0 }
      (Except.ok new_key,
        { entries := a.entries ++ [{ key := new_key, value := some value }],
          free_indices := a.free_indices })
  | free_idx :: rest =>
      match a.entries[free_idx]? with
      | none => (Except.error Err.allocInternal, { entries := a.entries, free_indices := rest })
      | some entry =>
          let new_key : GenIndex :=
            { index := entry.key.index, generation := entry.key.generation + 1 }
          (Except.ok new_key,
            { entries := a.entries.set free_idx { key := new_key, value := some value },
              free_indices := rest })

/-- `GenIndexAllocator::deallocate`. Index out of range is the NOT_FOUND
error, a generation mismatch is the STALE_HANDLE error; otherwise the value
is `take`n out (leaving `None`) and the position is pushed onto the
free-list. Returns the `Result` together with the post-call state. -/
def deallocate (a : GenIndexAllocator T) (key : GenIndex) :
    Except Err (Option T) × GenIndexAllocator T :=
  match a.entries[key.index]? with
  | none => (Except.error Err.deallocNotFound, a)
  | some entry =>
      if entry.key.generation ≠ key.generation then
        (Except.error Err.deallocWrongGeneration, a)
      else
        (Except.ok entry.value,
          { entries := a.entries.set key.index { key := entry.key, value := none },
            free_indices := key.index :: a.free_indices })

/-- `GenIndexAllocator::get`: `None` when the index is out of range or the
generation mismatches, otherwise the slot's `value` option as-is. -/
def get (a : GenIndexAllocator T) (key : GenIndex) : Option T :=
  match a.entries[key.index]? with
  | none => none
  | some entry =>
      if entry.key.generation ≠ key.generation then none else entry.value

/-- `get` as a full call on the receiver: the source signature is
`fn get(&self, ...) -> Option<&T>`, a shared-borrow method, so the
post-call state is the receiver unchanged. -/
def get_call (a : GenIndexAllocator T) (key : GenIndex) :
    Option T × GenIndexAllocator T :=
  (a.get key, a)

/-- The state effect of `GenIndexAllocator::get_mut` followed by the caller
writing `value` through the returned mutable reference: the write happens
exactly when `get_mut` returned `Some`, i.e. when the index is in range, the
generation matches and the slot is occupied; it touches only the slot's
value, never the key or the free-list. -/
def get_mut_write (a : GenIndexAllocator T) (key : GenIndex) (value : T) :
    GenIndexAllocator T :=
  match a.entries[key.index]? with
  | none => a
  | some entry =>
      if entry.key.generation ≠ key.generation then a
      else
        match entry.value with
        | none => a
        | some _ =>
            { entries := a.entries.set key.index { key := entry.key, value := some value },
              free_indices := a.free_indices }

/-- `GenIndexAllocator::set`. After validation the source runs
`entry.value.replace(value)`, which STORES `value` unconditionally and
returns the previous contents; only then does `ok_or_else` turn a previous
`None` into the OVERWRITE_EMPTY error — so on that error path the value has
nevertheless been written. Returns the `Result` with the post-call state. -/
def set (a : GenIndexAllocator T) (key : GenIndex) (value : T) :
    Except Err T × GenIndexAllocator T :=
  match a.entries[key.index]? with
  | none => (Except.error Err.setNotFound, a)
  | some entry =>
      if entry.key.generation ≠ key.generation then
        (Except.error Err.setWrongGeneration, a)
      else
        match entry.value with
        | some old =>
            (Except.ok old,
              { entries := a.entries.set key.index { key := entry.key, value := some value },
                free_indices := a.free_indices })
        | none =>
            (Except.error Err.setOverwriteEmpty,
              { entries := a.entries.set key.index { key := entry.key, value := some value },
                free_indices := a.free_indices })

/-- The generation of the slot at position `i`, when that position exists. -/
def genAt (a : GenIndexAllocator T) (i : Nat) : Option Nat :=
  (a.entries[i]?).map fun e => e.key.generation

/-- Whether position `i` currently holds a value. -/
def occupiedAt (a : GenIndexAllocator T) (i : Nat) : Bool :=
  match a.entries[i]? with
  | none => false
  | some entry => entry.value.isSome

/-- Whether `key` validates against its slot (index in range, generation
matches) while that slot is currently vacant. -/
def validVacant (a : GenIndexAllocator T) (key : GenIndex) : Bool :=
  match a.entries[key.index]? with
  | none => false
  | some entry => entry.key.generation == key.generation && entry.value.isNone

/-- Every position on the free-list is strictly below the table length. -/
def IndicesBounded (a : GenIndexAllocator T) : Prop :=
  ∀ i ∈ a.free_indices, i < a.entries.length

/-- Every slot's stored key records the slot's own position. -/
def KeysConsistent (a : GenIndexAllocator T) : Prop :=
  ∀ (i : Nat) (e : GenIndexEntry T), a.entries[i]? = some e → e.key.index = i

/-- Every position on the free-list names an existing, currently vacant
slot, and the free-list has no duplicates. -/
def FreeInv (a : GenIndexAllocator T) : Prop :=
  a.free_indices.Nodup ∧
    ∀ i ∈ a.free_indices, ∃ e, a.entries[i]? = some e ∧ e.value = none

/-- One public state-mutating call with arbitrary arguments: `allocate`,
`deallocate`, `set`, or a write through `get_mut` (plain `get` leaves the
state unchanged). -/
inductive Step (T : Type) : GenIndexAllocator T → GenIndexAllocator T → Prop where
  | alloc (a : GenIndexAllocator T) (v : T) : Step T a (a.allocate v).2
  | dealloc (a : GenIndexAllocator T) (k : GenIndex) : Step T a (a.deallocate k).2
  | setOp (a : GenIndexAllocator T) (k : GenIndex) (v : T) : Step T a (a.set k v).2
  | mutOp (a : GenIndexAllocator T) (k : GenIndex) (v : T) : Step T a (a.get_mut_write k v)

/-- States reachable from `new()` or `with_capacity(n)` by any sequence of
public operations. -/
inductive Reachable (T : Type) : GenIndexAllocator T → Prop where
  | mk_new : Reachable T (new T)
  | mk_with_capacity (n : Nat) : Reachable T (with_capacity T n)
  | step {a b : GenIndexAllocator T} : Reachable T a → Step T a b → Reachable T b

/-- States reachable from `new()` or `with_capacity(n)` by sequences of the
public operations in which `deallocate` and `set` are never applied to a
handle that validates against a currently-vacant slot (the two calls whose
vacant-slot paths disturb the free-list discipline). -/
inductive ReachableND (T : Type) : GenIndexAllocator T → Prop where
  | mk_new : ReachableND T (new T)
  | mk_with_capacity (n : Nat) : ReachableND T (with_capacity T n)
  | alloc {a : GenIndexAllocator T} (v : T) :
      ReachableND T a → ReachableND T (a.allocate v).2
  | dealloc {a : GenIndexAllocator T} (k : GenIndex) :
      ReachableND T a → a.validVacant k = false → ReachableND T (a.deallocate k).2
  | setOp {a : GenIndexAllocator T} (k : GenIndex) (v : T) :
      ReachableND T a → a.validVacant k = false → ReachableND T (a.set k v).2
  | mutOp {a : GenIndexAllocator T} (k : GenIndex) (v : T) :
      ReachableND T a → ReachableND T (a.get_mut_write k v)

/-- Runs one `allocate` per list element, collecting the handles of the
successful calls in order. -/
def allocMany (a : GenIndexAllocator T) : List T → List GenIndex × GenIndexAllocator T
  | [] => ([], a)
  | v :: vs =>
      match a.allocate v with
      | (Except.ok k, a') =>
          let r := allocMany a' vs
          (k :: r.1, r.2)
      | (Except.error _, a') => allocMany a' vs

end GenIndexAllocator

open GenIndexAllocator

/-- Concrete trace: `with_capacity(1)` then `allocate(7)`. One occupied slot
whose key is `(0, 0)`; the free-list is empty. -/
def allocOneState : GenIndexAllocator Nat :=
  ((with_capacity Nat 1).allocate 7).2

/-- Concrete trace: `allocOneState` then `deallocate((0, 0))`. Slot 0 is
vacant, its generation is still 0, and the free-list is `[0]`. -/
def vacantState : GenIndexAllocator Nat :=
  (allocOneState.deallocate { index := 0, generation := 0 }).2

/-- Concrete trace: `vacantState` then a second `deallocate((0, 0))` (which
succeeds, since deallocation does not bump the generation). The free-list
now holds position 0 twice. -/
def dupState : GenIndexAllocator Nat :=
  (vacantState.deallocate { index := 0, generation := 0 }).2

/-- Scenario of the spec: `with_capacity(5)` then five allocations of 0..4. -/
def fiveAlloc : List GenIndex × GenIndexAllocator Nat :=
  (with_capacity Nat 5).allocMany [0, 1, 2, 3, 4]

/-- Scenario of the spec, after deallocating the handles with indices 3 and 4. -/
def fiveFreed : GenIndexAllocator Nat :=
  ((fiveAlloc.2.deallocate { index := 3, generation := 0 }).2.deallocate
    { index := 4, generation := 0 }).2

/-- Scenario of the spec, after two further allocations of 5 and 6. -/
def fiveReused : List GenIndex × GenIndexAllocator Nat :=
  fiveFreed.allocMany [5, 6]

/-! ## Helper lemmas: one equation per branch of each operation -/

theorem except_ok_ne_error {α β : Type} (x : α) (y : β) :
    (Except.ok x : Except β α) ≠ Except.error y :=
  fun h => Except.noConfusion h

theorem except_error_ne_error {α β : Type} {x y : β} (h : x ≠ y) :
    (Except.error x : Except β α) ≠ Except.error y :=
  fun he => h (Except.error.inj he)

namespace GenIndexAllocator

theorem allocate_eq_of_nil {T : Type} {a : GenIndexAllocator T} (v : T)
    (hf : a.free_indices = []) :
    a.allocate v =
      (Except.ok { index := a.entries.length, generation := 0 },
        { entries := a.entries ++
            [{ key := { index := a.entries.length, generation := 0 }, value := some v }],
          free_indices := [] }) := by
  simp only [allocate, hf]

theorem allocate_eq_of_cons_none {T : Type} {a : GenIndexAllocator T} (v : T)
    {i : Nat} {rest : List Nat} (hf : a.free_indices = i :: rest)
    (hx : a.entries[i]? = none) :
    a.allocate v =
      (Except.error Err.allocInternal, { entries := a.entries, free_indices := rest }) := by
  simp only [allocate, hf, hx]

theorem allocate_eq_of_cons_some {T : Type} {a : GenIndexAllocator T} (v : T)
    {i : Nat} {rest : List Nat} {e : GenIndexEntry T}
    (hf : a.free_indices = i :: rest) (hx : a.entries[i]? = some e) :
    a.allocate v =
      (Except.ok { index := e.key.index, generation := e.key.generation + 1 },
        { entries := a.entries.set i
            { key := { index := e.key.index, generation := e.key.generation + 1 },
              value := some v },
          free_indices := rest }) := by
  simp only [allocate, hf, hx]

theorem deallocate_eq_of_none {T : Type} {a : GenIndexAllocator T} {k : GenIndex}
    (hx : a.entries[k.index]? = none) :
    a.deallocate k = (Except.error Err.deallocNotFound, a) := by
  simp only [deallocate, hx]

theorem deallocate_eq_of_mismatch {T : Type} {a : GenIndexAllocator T} {k : GenIndex}
    {e : GenIndexEntry T} (hx : a.entries[k.index]? = some e)
    (hg : e.key.generation ≠ k.generation) :
    a.deallocate k = (Except.error Err.deallocWrongGeneration, a) := by
  simp only [deallocate, hx]
  rw [if_pos hg]

theorem deallocate_eq_of_match {T : Type} {a : GenIndexAllocator T} {k : GenIndex}
    {e : GenIndexEntry T} (hx : a.entries[k.index]? = some e)
    (hg : e.key.generation = k.generation) :
    a.deallocate k =
      (Except.ok e.value,
        { entries := a.entries.set k.index { key := e.key, value := none },
          free_indices := k.index :: a.free_indices }) := by
  simp only [deallocate, hx]
  rw [if_neg (by simp [hg])]

theorem get_eq_of_none {T : Type} {a : GenIndexAllocator T} {k : GenIndex}
    (hx : a.entries[k.index]? = none) : a.get k = none := by
  simp only [get, hx]

theorem get_eq_of_mismatch {T : Type} {a : GenIndexAllocator T} {k : GenIndex}
    {e : GenIndexEntry T} (hx : a.entries[k.index]? = some e)
    (hg : e.key.generation ≠ k.generation) : a.get k = none := by
  simp only [get, hx]
  rw [if_pos hg]

theorem get_eq_of_match {T : Type} {a : GenIndexAllocator T} {k : GenIndex}
    {e : GenIndexEntry T} (hx : a.entries[k.index]? = some e)
    (hg : e.key.generation = k.generation) : a.get k = e.value := by
  simp only [get, hx]
  rw [if_neg (by simp [hg])]

theorem set_eq_of_none {T : Type} {a : GenIndexAllocator T} {k : GenIndex} (v : T)
    (hx : a.entries[k.index]? = none) :
    a.set k v = (Except.error Err.setNotFound, a) := by
  simp only [set, hx]

theorem set_eq_of_mismatch {T : Type} {a : GenIndexAllocator T} {k : GenIndex} (v : T)
    {e : GenIndexEntry T} (hx : a.entries[k.index]? = some e)
    (hg : e.key.generation ≠ k.generation) :
    a.set k v = (Except.error Err.setWrongGeneration, a) := by
  simp only [set, hx]
  rw [if_pos hg]

theorem set_eq_of_match_some {T : Type} {a : GenIndexAllocator T} {k : GenIndex} (v : T)
    {e : GenIndexEntry T} {old : T} (hx : a.entries[k.index]? = some e)
    (hg : e.key.generation = k.generation) (hv : e.value = some old) :
    a.set k v =
      (Except.ok old,
        { entries := a.entries.set k.index { key := e.key, value := some v },
          free_indices := a.free_indices }) := by
  simp only [set, hx, hv]
  rw [if_neg (by simp [hg])]

theorem set_eq_of_match_none {T : Type} {a : GenIndexAllocator T} {k : GenIndex} (v : T)
    {e : GenIndexEntry T} (hx : a.entries[k.index]? = some e)
    (hg : e.key.generation = k.generation) (hv : e.value = none) :
    a.set k v =
      (Except.error Err.setOverwriteEmpty,
        { entries := a.entries.set k.index { key := e.key, value := some v },
          free_indices := a.free_indices }) := by
  simp only [set, hx, hv]
  rw [if_neg (by simp [hg])]

theorem get_mut_write_eq_of_none {T : Type} {a : GenIndexAllocator T} {k : GenIndex} (v : T)
    (hx : a.entries[k.index]? = none) : a.get_mut_write k v = a := by
  simp only [get_mut_write, hx]

theorem get_mut_write_eq_of_mismatch {T : Type} {a : GenIndexAllocator T} {k : GenIndex}
    (v : T) {e : GenIndexEntry T} (hx : a.entries[k.index]? = some e)
    (hg : e.key.generation ≠ k.generation) : a.get_mut_write k v = a := by
  simp only [get_mut_write, hx]
  rw [if_pos hg]

theorem get_mut_write_eq_of_vacant {T : Type} {a : GenIndexAllocator T} {k : GenIndex}
    (v : T) {e : GenIndexEntry T} (hx : a.entries[k.index]? = some e)
    (hg : e.key.generation = k.generation) (hv : e.value = none) :
    a.get_mut_write k v = a := by
  simp only [get_mut_write, hx, hv]
  rw [if_neg (by simp [hg])]

theorem get_mut_write_eq_of_occupied {T : Type} {a : GenIndexAllocator T} {k : GenIndex}
    (v : T) {e : GenIndexEntry T} {w : T} (hx : a.entries[k.index]? = some e)
    (hg : e.key.generation = k.generation) (hv : e.value = some w) :
    a.get_mut_write k v =
      { entries := a.entries.set k.index { key := e.key, value := some v },
        free_indices := a.free_indices } := by
  simp only [get_mut_write, hx, hv]
  rw [if_neg (by simp [hg])]

theorem genAt_eq_of_some {T : Type} {a : GenIndexAllocator T} {i : Nat}
    {e : GenIndexEntry T} (hx : a.entries[i]? = some e) :
    a.genAt i = some e.key.generation := by
  simp only [genAt, hx]
  rfl

end GenIndexAllocator

theorem lt_length_of_getElem?_eq_some {α : Type} {l : List α} {i : Nat} {x : α}
    (h : l[i]? = some x) : i < l.length := by
  rcases List.getElem?_eq_some.mp h with ⟨hlt, _⟩
  exact hlt

/-! ## Claim theorems -/

/-- C1 (the code evaluated at the failing input): in `vacantState` the
handle `(0, 0)` validates against slot 0, which is vacant; `set((0,0), 42)`
reports the OVERWRITE_EMPTY error, yet the value 42 has been stored by the
`Option::replace` call that ran before the error was produced — the slot is
now occupied and the state has changed, contradicting the claim that the
slot remains vacant and the allocator state is unchanged. -/
theorem c1_set_on_vacant_slot_stores_anyway :
    vacantState.validVacant { index := 0, generation := 0 } = true
    ∧ (vacantState.set { index := 0, generation := 0 } 42).1 =
        Except.error Err.setOverwriteEmpty
    ∧ (vacantState.set { index := 0, generation := 0 } 42).2.get
        { index := 0, generation := 0 } = some 42
    ∧ (vacantState.set { index := 0, generation := 0 } 42).2.occupiedAt 0 = true
    ∧ (vacantState.set { index := 0, generation := 0 } 42).2 ≠ vacantState :=
  ⟨rfl, rfl, rfl, rfl, by decide⟩

/-- C5: `deallocate` errors with the NOT_FOUND kind exactly on an
out-of-range index, errors with the STALE_HANDLE kind exactly on an
in-range index whose slot generation differs from the handle's, and
otherwise succeeds, returning the (possibly absent) removed value and
pushing the position onto the free-list; the two error kinds are distinct. -/
theorem c5_deallocate_error_classification {T : Type}
    (a : GenIndexAllocator T) (k : GenIndex) :
    ((a.deallocate k).1 = Except.error Err.deallocNotFound ↔
        a.entries.length ≤ k.index)
    ∧ ((a.deallocate k).1 = Except.error Err.deallocWrongGeneration ↔
        k.index < a.entries.length ∧ a.genAt k.index ≠ some k.generation)
    ∧ (∀ e, a.entries[k.index]? = some e → e.key.generation = k.generation →
        a.deallocate k =
          (Except.ok e.value,
            { entries := a.entries.set k.index { key := e.key, value := none },
              free_indices := k.index :: a.free_indices }))
    ∧ Err.deallocNotFound ≠ Err.deallocWrongGeneration := by
  refine ⟨?_, ?_, fun e he hg => deallocate_eq_of_match he hg, by decide⟩
  · cases hx : a.entries[k.index]? with
    | none =>
        rw [deallocate_eq_of_none hx]
        exact ⟨fun _ => List.getElem?_eq_none_iff.mp hx, fun _ => rfl⟩
    | some e =>
        have hlt := lt_length_of_getElem?_eq_some hx
        by_cases hg : e.key.generation = k.generation
        · rw [deallocate_eq_of_match hx hg]
          exact ⟨fun h => absurd h (except_ok_ne_error _ _),
                 fun h => absurd hlt (Nat.not_lt.mpr h)⟩
        · rw [deallocate_eq_of_mismatch hx hg]
          exact ⟨fun h => absurd h (except_error_ne_error (by decide)),
                 fun h => absurd hlt (Nat.not_lt.mpr h)⟩
  · cases hx : a.entries[k.index]? with
    | none =>
        rw [deallocate_eq_of_none hx]
        have hlen := List.getElem?_eq_none_iff.mp hx
        exact ⟨fun h => absurd h (except_error_ne_error (by decide)),
               fun h => absurd h.1 (Nat.not_lt.mpr hlen)⟩
    | some e =>
        have hlt := lt_length_of_getElem?_eq_some hx
        have hgen := genAt_eq_of_some hx
        by_cases hg : e.key.generation = k.generation
        · rw [deallocate_eq_of_match hx hg]
          refine ⟨fun h => absurd h (except_ok_ne_error _ _), fun h => ?_⟩
          exact absurd (by rw [hgen, hg]) h.2
        · rw [deallocate_eq_of_mismatch hx hg]
          refine ⟨fun _ => ⟨hlt, ?_⟩, fun _ => rfl⟩
          rw [hgen]
          exact fun hc => hg (Option.some.inj hc)

/-- Witness for C5 at a concrete input: index 2 is out of range in a
one-slot table, so `deallocate` reports the NOT_FOUND kind. -/
theorem c5_witness :
    allocOneState.entries.length ≤ 2
    ∧ (allocOneState.deallocate { index := 2, generation := 0 }).1 =
        Except.error Err.deallocNotFound :=
  ⟨by decide,
    ((c5_deallocate_error_classification allocOneState
      { index := 2, generation := 0 }).1).mpr (by decide)⟩

/-- C6: `get` returns the stored value exactly when the index is in range,
the slot's generation matches and the slot is occupied; in every other case
it returns `none`, and as a shared-borrow call it leaves the state
unchanged. -/
theorem c6_get_iff_valid_occupied {T : Type} (a : GenIndexAllocator T) (k : GenIndex) :
    (∀ v, a.get k = some v ↔
      ∃ e, a.entries[k.index]? = some e ∧ e.key.generation = k.generation ∧
        e.value = some v)
    ∧ (a.get_call k).2 = a := by
  refine ⟨fun v => ?_, rfl⟩
  cases hx : a.entries[k.index]? with
  | none =>
      rw [get_eq_of_none hx]
      refine ⟨fun h => Option.noConfusion h, fun h => ?_⟩
      obtain ⟨e, he, _, _⟩ := h
      exact Option.noConfusion he
  | some e =>
      by_cases hg : e.key.generation = k.generation
      · rw [get_eq_of_match hx hg]
        refine ⟨fun h => ⟨e, rfl, hg, h⟩, fun h => ?_⟩
        obtain ⟨e', he', hg', hv'⟩ := h
        injection he' with heq
        subst heq
        exact hv'
      · rw [get_eq_of_mismatch hx hg]
        refine ⟨fun h => Option.noConfusion h, fun h => ?_⟩
        obtain ⟨e', he', hg', _⟩ := h
        injection he' with heq
        subst heq
        exact absurd hg' hg

/-- Witness for C6 at a concrete input: the slot occupied by `allocate(7)`
is read back through its handle. -/
theorem c6_witness :
    (∃ e, allocOneState.entries[(0 : Nat)]? = some e ∧ e.key.generation = 0 ∧
        e.value = some 7)
    ∧ allocOneState.get { index := 0, generation := 0 } = some 7 :=
  ⟨⟨{ key := { index := 0, generation := 0 }, value := some 7 }, rfl, rfl, rfl⟩,
    ((c6_get_iff_valid_occupied allocOneState { index := 0, generation := 0 }).1 7).mpr
      ⟨{ key := { index := 0, generation := 0 }, value := some 7 }, rfl, rfl, rfl⟩⟩

/-- C4: a successful `deallocate(h)` leaves every slot's generation
unchanged; afterwards `get(h)` is absent (the slot is now vacant), a second
`deallocate(h)` still succeeds rather than reporting a stale handle, and
the next `allocate` — which reuses `h.index`, now on top of the
free-list — bumps that slot's generation by exactly 1 to
`h.generation + 1`. -/
theorem c4_deallocate_keeps_generation {T : Type} (a : GenIndexAllocator T)
    (k : GenIndex) (r : Option T) (h : (a.deallocate k).1 = Except.ok r) :
    (∀ i, (a.deallocate k).2.genAt i = a.genAt i)
    ∧ (a.deallocate k).2.get k = none
    ∧ (∃ r2, ((a.deallocate k).2.deallocate k).1 = Except.ok r2)
    ∧ ∀ v, ((a.deallocate k).2.allocate v).2.genAt k.index =
        some (k.generation + 1) := by
  cases hx : a.entries[k.index]? with
  | none =>
      rw [deallocate_eq_of_none hx] at h
      exact Except.noConfusion h
  | some e =>
      by_cases hg : e.key.generation = k.generation
      · have hlt := lt_length_of_getElem?_eq_some hx
        have h2x : (a.deallocate k).2.entries[k.index]? =
            some { key := e.key, value := none } := by
          rw [deallocate_eq_of_match hx hg]
          exact List.getElem?_set_eq_of_lt _ hlt
        have h2f : (a.deallocate k).2.free_indices = k.index :: a.free_indices := by
          rw [deallocate_eq_of_match hx hg]
        refine ⟨fun i => ?_, get_eq_of_match h2x hg, ⟨none, ?_⟩, fun v => ?_⟩
        · by_cases hi : i = k.index
          · rw [hi, genAt_eq_of_some h2x, genAt_eq_of_some hx]
          · have h2i : (a.deallocate k).2.entries[i]? = a.entries[i]? := by
              rw [deallocate_eq_of_match hx hg]
              exact List.getElem?_set_ne (Ne.symm hi)
            unfold genAt
            rw [h2i]
        · rw [deallocate_eq_of_match h2x hg]
        · have hlen2 : k.index < (a.deallocate k).2.entries.length := by
            rw [deallocate_eq_of_match hx hg]
            simpa using hlt
          rw [allocate_eq_of_cons_some v h2f h2x,
            genAt_eq_of_some (List.getElem?_set_eq_of_lt _ hlen2)]
          show some (e.key.generation + 1) = some (k.generation + 1)
          rw [hg]
      · rw [deallocate_eq_of_mismatch hx hg] at h
        exact Except.noConfusion h

/-- Witness for C4 at a concrete input: deallocating the handle issued by
`allocate(7)` on a fresh allocator. -/
theorem c4_witness :
    (allocOneState.deallocate { index := 0, generation := 0 }).1 = Except.ok (some 7)
    ∧ ((∀ i, (allocOneState.deallocate { index := 0, generation := 0 }).2.genAt i =
          allocOneState.genAt i)
      ∧ (allocOneState.deallocate { index := 0, generation := 0 }).2.get
          { index := 0, generation := 0 } = none
      ∧ (∃ r2, ((allocOneState.deallocate { index := 0, generation := 0 }).2.deallocate
          { index := 0, generation := 0 }).1 = Except.ok r2)
      ∧ ∀ v, ((allocOneState.deallocate
          { index := 0, generation := 0 }).2.allocate v).2.genAt 0 = some (0 + 1)) :=
  ⟨rfl, c4_deallocate_keeps_generation allocOneState
    { index := 0, generation := 0 } (some 7) rfl⟩

/-- C7: when the free-list is non-empty, `allocate` pops and reuses its
most recently pushed position (LIFO); concretely, `with_capacity(5)` and
five allocations yield handles with indices 0..4 at generation 0; after
deallocating the handles for indices 3 and 4, `get` on those handles is
absent, two further allocations reuse index 4 first and then index 3, both
at generation 1, and the table length remains 5. -/
theorem c7_lifo_reuse_and_scenario :
    (∀ (T : Type) (a : GenIndexAllocator T) (v : T) (i : Nat) (rest : List Nat)
        (e : GenIndexEntry T), a.free_indices = i :: rest → a.entries[i]? = some e →
        a.allocate v =
          (Except.ok { index := e.key.index, generation := e.key.generation + 1 },
            { entries := a.entries.set i
                { key := { index := e.key.index, generation := e.key.generation + 1 },
                  value := some v },
              free_indices := rest }))
    ∧ fiveAlloc.1 = [{ index := 0, generation := 0 }, { index := 1, generation := 0 },
        { index := 2, generation := 0 }, { index := 3, generation := 0 },
        { index := 4, generation := 0 }]
    ∧ fiveFreed.free_indices = [4, 3]
    ∧ fiveFreed.get { index := 3, generation := 0 } = none
    ∧ fiveFreed.get { index := 4, generation := 0 } = none
    ∧ fiveReused.1 = [{ index := 4, generation := 1 }, { index := 3, generation := 1 }]
    ∧ fiveReused.2.entries.length = 5 :=
  ⟨fun T a v i rest e hf hx => allocate_eq_of_cons_some v hf hx,
    by decide, by decide, rfl, rfl, by decide, by decide⟩

/-- Witness for C7's universally quantified LIFO clause at a concrete
input: in the scenario state whose free-list is `[4, 3]`, allocating pops
position 4. -/
theorem c7_witness :
    fiveFreed.free_indices = 4 :: [3]
    ∧ fiveFreed.entries[(4 : Nat)]? =
        some { key := { index := 4, generation := 0 }, value := none }
    ∧ fiveFreed.allocate 9 =
        (Except.ok { index := 4, generation := 1 },
          { entries := fiveFreed.entries.set 4
              { key := { index := 4, generation := 1 }, value := some 9 },
            free_indices := [3] }) :=
  ⟨rfl, rfl, c7_lifo_reuse_and_scenario.1 Nat fiveFreed 9 4 [3]
    { key := { index := 4, generation := 0 }, value := none } rfl rfl⟩

/-- C10: whenever `deallocate` returns an error, the returned allocator
state is exactly the input state: table, slots and free-list unchanged. -/
theorem c10_deallocate_error_state_unchanged {T : Type} (a : GenIndexAllocator T)
    (k : GenIndex) (e : Err) (h : (a.deallocate k).1 = Except.error e) :
    (a.deallocate k).2 = a := by
  cases hx : a.entries[k.index]? with
  | none => rw [deallocate_eq_of_none hx]
  | some entry =>
      by_cases hg : entry.key.generation = k.generation
      · rw [deallocate_eq_of_match hx hg] at h
        exact absurd h (except_ok_ne_error _ _)
      · rw [deallocate_eq_of_mismatch hx hg]

/-- Witness for C10 at a concrete input: deallocating an out-of-range
handle on an empty allocator fails and leaves the state unchanged. -/
theorem c10_witness :
    ((with_capacity Nat 0).deallocate { index := 0, generation := 0 }).1 =
        Except.error Err.deallocNotFound
    ∧ ((with_capacity Nat 0).deallocate { index := 0, generation := 0 }).2 =
        with_capacity Nat 0 :=
  ⟨rfl, c10_deallocate_error_state_unchanged _ _ Err.deallocNotFound rfl⟩

/-! ## Invariants preserved by every public operation -/

namespace GenIndexAllocator

theorem keys_consistent_set_same_key {T : Type} {a : GenIndexAllocator T}
    {k : GenIndex} {e : GenIndexEntry T} (w : Option T)
    (hx : a.entries[k.index]? = some e) (hk : KeysConsistent a)
    (i : Nat) (e2 : GenIndexEntry T)
    (he : (a.entries.set k.index { key := e.key, value := w })[i]? = some e2) :
    e2.key.index = i := by
  by_cases hik : i = k.index
  · subst hik
    rw [List.getElem?_set_eq_of_lt _ (lt_length_of_getElem?_eq_some hx)] at he
    injection he with heq
    subst heq
    exact hk k.index e hx
  · rw [List.getElem?_set_ne (fun hc => hik hc.symm)] at he
    exact hk i e2 he

theorem bounded_consistent_allocate {T : Type} {a : GenIndexAllocator T} (v : T)
    (hb : IndicesBounded a) (hk : KeysConsistent a) :
    IndicesBounded (a.allocate v).2 ∧ KeysConsistent (a.allocate v).2 := by
  cases hf : a.free_indices with
  | nil =>
      rw [allocate_eq_of_nil v hf]
      constructor
      · intro i hi
        exact absurd hi (List.not_mem_nil i)
      · intro i e he
        by_cases hi : i < a.entries.length
        · rw [List.getElem?_append_left hi] at he
          exact hk i e he
        · have hge := Nat.le_of_not_lt hi
          rw [List.getElem?_append_right hge] at he
          cases hd : i - a.entries.length with
          | zero =>
              rw [hd] at he
              injection he with heq
              subst heq
              show a.entries.length = i
              omega
          | succ m =>
              rw [hd, List.getElem?_cons_succ, List.getElem?_nil] at he
              exact Option.noConfusion he
  | cons j rest =>
      cases hx : a.entries[j]? with
      | none =>
          rw [allocate_eq_of_cons_none v hf hx]
          constructor
          · intro i hi
            exact hb i (by rw [hf]; exact List.mem_cons_of_mem j hi)
          · intro i e he
            exact hk i e he
      | some e0 =>
          rw [allocate_eq_of_cons_some v hf hx]
          have hj : e0.key.index = j := hk j e0 hx
          constructor
          · intro i hi
            have hmem : i ∈ a.free_indices := by
              rw [hf]
              exact List.mem_cons_of_mem j hi
            have := hb i hmem
            simpa using this
          · intro i e he
            by_cases hij : i = j
            · subst hij
              rw [List.getElem?_set_eq_of_lt _ (lt_length_of_getElem?_eq_some hx)] at he
              injection he with heq
              subst heq
              exact hj
            · rw [List.getElem?_set_ne (fun hc => hij hc.symm)] at he
              exact hk i e he

theorem bounded_consistent_deallocate {T : Type} {a : GenIndexAllocator T}
    (k : GenIndex) (hb : IndicesBounded a) (hk : KeysConsistent a) :
    IndicesBounded (a.deallocate k).2 ∧ KeysConsistent (a.deallocate k).2 := by
  cases hx : a.entries[k.index]? with
  | none =>
      rw [deallocate_eq_of_none hx]
      exact ⟨hb, hk⟩
  | some e =>
      by_cases hg : e.key.generation = k.generation
      · rw [deallocate_eq_of_match hx hg]
        have hlt := lt_length_of_getElem?_eq_some hx
        constructor
        · intro i hi
          rcases List.mem_cons.mp hi with h1 | h2
          · subst h1
            simpa using hlt
          · have := hb i h2
            simpa using this
        · exact keys_consistent_set_same_key none hx hk
      · rw [deallocate_eq_of_mismatch hx hg]
        exact ⟨hb, hk⟩

theorem bounded_consistent_set {T : Type} {a : GenIndexAllocator T}
    (k : GenIndex) (v : T) (hb : IndicesBounded a) (hk : KeysConsistent a) :
    IndicesBounded (a.set k v).2 ∧ KeysConsistent (a.set k v).2 := by
  cases hx : a.entries[k.index]? with
  | none =>
      rw [set_eq_of_none v hx]
      exact ⟨hb, hk⟩
  | some e =>
      by_cases hg : e.key.generation = k.generation
      · have hsub : IndicesBounded
              (GenIndexAllocator.mk
                (a.entries.set k.index { key := e.key, value := some v })
                a.free_indices)
            ∧ KeysConsistent
              (GenIndexAllocator.mk
                (a.entries.set k.index { key := e.key, value := some v })
                a.free_indices) := by
          constructor
          · intro i hi
            have := hb i hi
            simpa using this
          · exact keys_consistent_set_same_key (some v) hx hk
        cases hv : e.value with
        | none =>
            rw [set_eq_of_match_none v hx hg hv]
            exact hsub
        | some old =>
            rw [set_eq_of_match_some v hx hg hv]
            exact hsub
      · rw [set_eq_of_mismatch v hx hg]
        exact ⟨hb, hk⟩

theorem bounded_consistent_mut {T : Type} {a : GenIndexAllocator T}
    (k : GenIndex) (v : T) (hb : IndicesBounded a) (hk : KeysConsistent a) :
    IndicesBounded (a.get_mut_write k v) ∧ KeysConsistent (a.get_mut_write k v) := by
  cases hx : a.entries[k.index]? with
  | none =>
      rw [get_mut_write_eq_of_none v hx]
      exact ⟨hb, hk⟩
  | some e =>
      by_cases hg : e.key.generation = k.generation
      · cases hv : e.value with
        | none =>
            rw [get_mut_write_eq_of_vacant v hx hg hv]
            exact ⟨hb, hk⟩
        | some w =>
            rw [get_mut_write_eq_of_occupied v hx hg hv]
            constructor
            · intro i hi
              have := hb i hi
              simpa using this
            · exact keys_consistent_set_same_key (some v) hx hk
      · rw [get_mut_write_eq_of_mismatch v hx hg]
        exact ⟨hb, hk⟩

theorem step_bounded_consistent {T : Type} {a b : GenIndexAllocator T}
    (hs : Step T a b) (hb : IndicesBounded a) (hk : KeysConsistent a) :
    IndicesBounded b ∧ KeysConsistent b := by
  cases hs with
  | alloc v => exact bounded_consistent_allocate v hb hk
  | dealloc k => exact bounded_consistent_deallocate k hb hk
  | setOp k v => exact bounded_consistent_set k v hb hk
  | mutOp k v => exact bounded_consistent_mut k v hb hk

theorem reachable_bounded_consistent {T : Type} {a : GenIndexAllocator T}
    (h : Reachable T a) : IndicesBounded a ∧ KeysConsistent a := by
  induction h with
  | mk_new =>
      constructor
      · intro i hi
        exact absurd hi (List.not_mem_nil i)
      · intro i e he
        rw [show (new T).entries = [] from rfl, List.getElem?_nil] at he
        exact Option.noConfusion he
  | mk_with_capacity n =>
      constructor
      · intro i hi
        exact absurd hi (List.not_mem_nil i)
      · intro i e he
        rw [show (with_capacity T n).entries = [] from rfl, List.getElem?_nil] at he
        exact Option.noConfusion he
  | step _ hs ih => exact step_bounded_consistent hs ih.1 ih.2

theorem step_length_mono {T : Type} {a b : GenIndexAllocator T} (hs : Step T a b) :
    a.entries.length ≤ b.entries.length := by
  cases hs with
  | alloc v =>
      cases hf : a.free_indices with
      | nil =>
          rw [allocate_eq_of_nil v hf]
          simp
      | cons j rest =>
          cases hx : a.entries[j]? with
          | none =>
              rw [allocate_eq_of_cons_none v hf hx]
          | some e =>
              rw [allocate_eq_of_cons_some v hf hx]
              simp
  | dealloc k =>
      cases hx : a.entries[k.index]? with
      | none => rw [deallocate_eq_of_none hx]
      | some e =>
          by_cases hg : e.key.generation = k.generation
          · rw [deallocate_eq_of_match hx hg]
            simp
          · rw [deallocate_eq_of_mismatch hx hg]
  | setOp k v =>
      cases hx : a.entries[k.index]? with
      | none => rw [set_eq_of_none v hx]
      | some e =>
          by_cases hg : e.key.generation = k.generation
          · cases hv : e.value with
            | none =>
                rw [set_eq_of_match_none v hx hg hv]
                simp
            | some old =>
                rw [set_eq_of_match_some v hx hg hv]
                simp
          · rw [set_eq_of_mismatch v hx hg]
  | mutOp k v =>
      cases hx : a.entries[k.index]? with
      | none => rw [get_mut_write_eq_of_none v hx]
      | some e =>
          by_cases hg : e.key.generation = k.generation
          · cases hv : e.value with
            | none => rw [get_mut_write_eq_of_vacant v hx hg hv]
            | some w =>
                rw [get_mut_write_eq_of_occupied v hx hg hv]
                simp
          · rw [get_mut_write_eq_of_mismatch v hx hg]

end GenIndexAllocator

theorem reachable_vacantState : Reachable Nat vacantState :=
  Reachable.step (Reachable.step (Reachable.mk_with_capacity 1) (Step.alloc _ 7))
    (Step.dealloc _ { index := 0, generation := 0 })

theorem reachable_dupState : Reachable Nat dupState :=
  Reachable.step reachable_vacantState (Step.dealloc _ { index := 0, generation := 0 })

/-- C8: from every reachable state, every free-list position is strictly
below the table length, `allocate` always succeeds (the defensive INTERNAL
error branch is unreachable), and no public operation ever shrinks the
table. -/
theorem c8_allocate_never_fails {T : Type} (a : GenIndexAllocator T)
    (h : Reachable T a) :
    IndicesBounded a
    ∧ (∀ v, ∃ k, (a.allocate v).1 = Except.ok k)
    ∧ ∀ b, Step T a b → a.entries.length ≤ b.entries.length := by
  obtain ⟨hb, hk⟩ := reachable_bounded_consistent h
  refine ⟨hb, fun v => ?_, fun b hs => step_length_mono hs⟩
  cases hf : a.free_indices with
  | nil => exact ⟨_, by rw [allocate_eq_of_nil v hf]⟩
  | cons j rest =>
      have hjlt : j < a.entries.length :=
        hb j (by rw [hf]; exact List.mem_cons_self j rest)
      obtain ⟨e, hx⟩ : ∃ e, a.entries[j]? = some e := by
        rw [List.getElem?_eq_getElem hjlt]
        exact ⟨_, rfl⟩
      exact ⟨_, by rw [allocate_eq_of_cons_some v hf hx]⟩

/-- Witness for C8 at a concrete reachable state (one with a duplicated
free-list, where allocation still succeeds). -/
theorem c8_witness :
    Reachable Nat dupState ∧ ∃ k, (dupState.allocate 5).1 = Except.ok k :=
  ⟨reachable_dupState, (c8_allocate_never_fails dupState reachable_dupState).2.1 5⟩

/-! ## The free-list invariant under the restricted reachability -/

namespace GenIndexAllocator

theorem value_ne_none_of_validVacant_false {T : Type} {a : GenIndexAllocator T}
    {k : GenIndex} {e : GenIndexEntry T} (hx : a.entries[k.index]? = some e)
    (hg : e.key.generation = k.generation) (hvv : a.validVacant k = false) :
    e.value ≠ none := by
  intro hv
  simp only [validVacant, hx, hg, hv] at hvv
  simp at hvv

theorem not_mem_free_of_occupied {T : Type} {a : GenIndexAllocator T} {j : Nat}
    {e : GenIndexEntry T}
    (hvac : ∀ i ∈ a.free_indices, ∃ e2, a.entries[i]? = some e2 ∧ e2.value = none)
    (hx : a.entries[j]? = some e) (hocc : e.value ≠ none) : j ∉ a.free_indices := by
  intro hmem
  obtain ⟨e2, hx2, hv2⟩ := hvac j hmem
  rw [hx] at hx2
  injection hx2 with heq
  subst heq
  exact hocc hv2

theorem freeInv_allocate {T : Type} {a : GenIndexAllocator T} (v : T)
    (h : FreeInv a) : FreeInv (a.allocate v).2 := by
  obtain ⟨hnd, hvac⟩ := h
  cases hf : a.free_indices with
  | nil =>
      rw [allocate_eq_of_nil v hf]
      exact ⟨List.nodup_nil, fun i hi => absurd hi (List.not_mem_nil i)⟩
  | cons j rest =>
      have hndc : (j :: rest).Nodup := hf ▸ hnd
      have hjmem : j ∈ a.free_indices := by
        rw [hf]
        exact List.mem_cons_self j rest
      obtain ⟨ej, hxj, hvj⟩ := hvac j hjmem
      rw [allocate_eq_of_cons_some v hf hxj]
      constructor
      · exact (List.nodup_cons.mp hndc).2
      · intro i hi
        have himem : i ∈ a.free_indices := by
          rw [hf]
          exact List.mem_cons_of_mem j hi
        obtain ⟨ei, hxi, hvi⟩ := hvac i himem
        have hij : j ≠ i := fun hc => (List.nodup_cons.mp hndc).1 (hc ▸ hi)
        refine ⟨ei, ?_, hvi⟩
        rw [List.getElem?_set_ne hij]
        exact hxi

theorem freeInv_deallocate {T : Type} {a : GenIndexAllocator T} (k : GenIndex)
    (h : FreeInv a) (hvv : a.validVacant k = false) : FreeInv (a.deallocate k).2 := by
  obtain ⟨hnd, hvac⟩ := h
  cases hx : a.entries[k.index]? with
  | none =>
      rw [deallocate_eq_of_none hx]
      exact ⟨hnd, hvac⟩
  | some e =>
      by_cases hg : e.key.generation = k.generation
      · have hocc := value_ne_none_of_validVacant_false hx hg hvv
        have hkmem := not_mem_free_of_occupied hvac hx hocc
        have hlt := lt_length_of_getElem?_eq_some hx
        rw [deallocate_eq_of_match hx hg]
        constructor
        · exact List.nodup_cons.mpr ⟨hkmem, hnd⟩
        · intro i hi
          rcases List.mem_cons.mp hi with h1 | h2
          · subst h1
            exact ⟨{ key := e.key, value := none },
              List.getElem?_set_eq_of_lt _ hlt, rfl⟩
          · obtain ⟨ei, hxi, hvi⟩ := hvac i h2
            have hik : k.index ≠ i := fun hc => hkmem (hc ▸ h2)
            refine ⟨ei, ?_, hvi⟩
            rw [List.getElem?_set_ne hik]
            exact hxi
      · rw [deallocate_eq_of_mismatch hx hg]
        exact ⟨hnd, hvac⟩

theorem freeInv_set {T : Type} {a : GenIndexAllocator T} (k : GenIndex) (v : T)
    (h : FreeInv a) (hvv : a.validVacant k = false) : FreeInv (a.set k v).2 := by
  obtain ⟨hnd, hvac⟩ := h
  cases hx : a.entries[k.index]? with
  | none =>
      rw [set_eq_of_none v hx]
      exact ⟨hnd, hvac⟩
  | some e =>
      by_cases hg : e.key.generation = k.generation
      · have hocc := value_ne_none_of_validVacant_false hx hg hvv
        have hkmem := not_mem_free_of_occupied hvac hx hocc
        cases hv : e.value with
        | none => exact absurd hv hocc
        | some old =>
            rw [set_eq_of_match_some v hx hg hv]
            refine ⟨hnd, fun i hi => ?_⟩
            obtain ⟨ei, hxi, hvi⟩ := hvac i hi
            have hik : k.index ≠ i := fun hc => hkmem (hc ▸ hi)
            refine ⟨ei, ?_, hvi⟩
            rw [List.getElem?_set_ne hik]
            exact hxi
      · rw [set_eq_of_mismatch v hx hg]
        exact ⟨hnd, hvac⟩

theorem freeInv_get_mut_write {T : Type} {a : GenIndexAllocator T}
    (k : GenIndex) (v : T) (h : FreeInv a) : FreeInv (a.get_mut_write k v) := by
  obtain ⟨hnd, hvac⟩ := h
  cases hx : a.entries[k.index]? with
  | none =>
      rw [get_mut_write_eq_of_none v hx]
      exact ⟨hnd, hvac⟩
  | some e =>
      by_cases hg : e.key.generation = k.generation
      · cases hv : e.value with
        | none =>
            rw [get_mut_write_eq_of_vacant v hx hg hv]
            exact ⟨hnd, hvac⟩
        | some w =>
            rw [get_mut_write_eq_of_occupied v hx hg hv]
            have hocc : e.value ≠ none := by
              rw [hv]
              exact fun hc => Option.noConfusion hc
            have hkmem := not_mem_free_of_occupied hvac hx hocc
            refine ⟨hnd, fun i hi => ?_⟩
            obtain ⟨ei, hxi, hvi⟩ := hvac i hi
            have hik : k.index ≠ i := fun hc => hkmem (hc ▸ hi)
            refine ⟨ei, ?_, hvi⟩
            rw [List.getElem?_set_ne hik]
            exact hxi
      · rw [get_mut_write_eq_of_mismatch v hx hg]
        exact ⟨hnd, hvac⟩

end GenIndexAllocator

theorem reachableND_freeInv {T : Type} {a : GenIndexAllocator T}
    (h : ReachableND T a) : FreeInv a := by
  induction h with
  | mk_new => exact ⟨List.nodup_nil, fun i hi => absurd hi (List.not_mem_nil i)⟩
  | mk_with_capacity n =>
      exact ⟨List.nodup_nil, fun i hi => absurd hi (List.not_mem_nil i)⟩
  | alloc v _ ih => exact freeInv_allocate v ih
  | dealloc k _ hvv ih => exact freeInv_deallocate k ih hvv
  | setOp k v _ hvv ih => exact freeInv_set k v ih hvv
  | mutOp k v _ ih => exact freeInv_get_mut_write k v ih

/-- C2 counterexample: `dupState` is reached from `with_capacity(1)` by
`allocate(7)` and then two `deallocate` calls with the same still-valid
handle (the second is the benign double-free the spec itself allows), and
its free-list is `[0, 0]` — a duplicate, falsifying the claimed invariant
for this reachable state. -/
theorem c2_counterexample :
    Reachable Nat dupState
    ∧ dupState.free_indices = [0, 0]
    ∧ ¬ (dupState.free_indices.Nodup ∧
        ∀ i ∈ dupState.free_indices, dupState.occupiedAt i = false) :=
  ⟨reachable_dupState, rfl, fun h => absurd h.1 (by decide)⟩

/-- C2 (amended): in every state reachable from `new()` or
`with_capacity(n)` by sequences of the public operations in which
`deallocate` and `set` are never applied to a handle that validates against
a currently-vacant slot, the free-list contains no duplicate positions and
no position whose slot is occupied. -/
theorem c2_free_list_nodup_and_vacant {T : Type} (a : GenIndexAllocator T)
    (h : ReachableND T a) :
    a.free_indices.Nodup ∧ ∀ i ∈ a.free_indices, a.occupiedAt i = false := by
  obtain ⟨hnd, hvac⟩ := reachableND_freeInv h
  refine ⟨hnd, fun i hi => ?_⟩
  obtain ⟨e, hx, hv⟩ := hvac i hi
  simp [GenIndexAllocator.occupiedAt, hx, hv]

/-- Witness for C2 at a concrete restricted-reachable state: allocate then
deallocate once; the free-list is `[0]`, duplicate-free, and slot 0 is
vacant. -/
theorem c2_witness :
    ReachableND Nat vacantState
    ∧ (vacantState.free_indices.Nodup
        ∧ ∀ i ∈ vacantState.free_indices, vacantState.occupiedAt i = false) :=
  have hr : ReachableND Nat vacantState :=
    ReachableND.dealloc { index := 0, generation := 0 }
      (ReachableND.alloc 7 (ReachableND.mk_with_capacity 1)) (by decide)
  ⟨hr, c2_free_list_nodup_and_vacant vacantState hr⟩

/-! ## Distinctness of allocated indices -/

namespace GenIndexAllocator

theorem allocMany_cons_ok {T : Type} {a : GenIndexAllocator T} (v : T) (vs : List T)
    {k : GenIndex} {a2 : GenIndexAllocator T} (h : a.allocate v = (Except.ok k, a2)) :
    a.allocMany (v :: vs) = (k :: (a2.allocMany vs).1, (a2.allocMany vs).2) := by
  simp only [allocMany, h]

theorem allocMany_indices_nodup {T : Type} (vs : List T) (a : GenIndexAllocator T)
    (hb : IndicesBounded a) (hk : KeysConsistent a) (hnd : a.free_indices.Nodup) :
    ((a.allocMany vs).1.map GenIndex.index).Nodup
    ∧ (∀ j ∈ (a.allocMany vs).1.map GenIndex.index,
        j ∈ a.free_indices ∨ a.entries.length ≤ j)
    ∧ (a.allocMany vs).1.length = vs.length := by
  induction vs generalizing a with
  | nil =>
      exact ⟨List.nodup_nil, fun j hj => absurd hj (List.not_mem_nil j), rfl⟩
  | cons v vs ih =>
      cases hf : a.free_indices with
      | nil =>
          have ha := allocate_eq_of_nil v hf
          have hbc := bounded_consistent_allocate v hb hk
          rw [ha] at hbc
          rw [allocMany_cons_ok v vs ha]
          obtain ⟨ihnd, ihmem, ihlen⟩ :=
            ih _ hbc.1 hbc.2 (by exact List.nodup_nil)
          simp only [List.map_cons, List.length_cons]
          refine ⟨List.nodup_cons.mpr ⟨?_, ihnd⟩, ?_, by rw [ihlen]⟩
          · intro hmem
            rcases ihmem _ hmem with h1 | h1
            · exact absurd h1 (List.not_mem_nil _)
            · simp at h1
          · intro j hj
            rcases List.mem_cons.mp hj with h1 | h1
            · subst h1
              exact Or.inr (Nat.le_refl _)
            · rcases ihmem j h1 with h2 | h2
              · exact absurd h2 (List.not_mem_nil _)
              · refine Or.inr ?_
                simp at h2
                omega
      | cons i0 rest =>
          have hi0mem : i0 ∈ a.free_indices := by
            rw [hf]
            exact List.mem_cons_self i0 rest
          have hi0lt : i0 < a.entries.length := hb i0 hi0mem
          obtain ⟨e, hx⟩ : ∃ e, a.entries[i0]? = some e := by
            rw [List.getElem?_eq_getElem hi0lt]
            exact ⟨_, rfl⟩
          have hkey : e.key.index = i0 := hk i0 e hx
          have ha := allocate_eq_of_cons_some v hf hx
          have hbc := bounded_consistent_allocate v hb hk
          rw [ha] at hbc
          have hndc : (i0 :: rest).Nodup := hf ▸ hnd
          rw [allocMany_cons_ok v vs ha]
          obtain ⟨ihnd, ihmem, ihlen⟩ :=
            ih _ hbc.1 hbc.2 (by exact (List.nodup_cons.mp hndc).2)
          simp only [List.map_cons, List.length_cons]
          have hlen1 : (a.entries.set i0
              { key := { index := e.key.index, generation := e.key.generation + 1 },
                value := some v }).length = a.entries.length := List.length_set ..
          refine ⟨List.nodup_cons.mpr ⟨?_, ihnd⟩, ?_, by rw [ihlen]⟩
          · intro hmem
            rcases ihmem _ hmem with h1 | h1
            · rw [hkey] at h1
              exact (List.nodup_cons.mp hndc).1 h1
            · rw [hkey] at h1
              have h2 : a.entries.length ≤ i0 := by simpa using h1
              omega
          · intro j hj
            rcases List.mem_cons.mp hj with h1 | h1
            · subst h1
              refine Or.inl ?_
              rw [hkey]
              exact List.mem_cons_self i0 rest
            · rcases ihmem j h1 with h2 | h2
              · exact Or.inl (List.mem_cons_of_mem i0 h2)
              · refine Or.inr ?_
                simpa using h2

end GenIndexAllocator

/-- C3 counterexample: `dupState` is reachable, yet two successful
`allocate` calls with no interleaved `deallocate` both return handles with
index 0, because the free-list holds position 0 twice. -/
theorem c3_counterexample :
    Reachable Nat dupState
    ∧ (dupState.allocMany [5, 6]).1.length = 2
    ∧ (dupState.allocMany [5, 6]).1.map GenIndex.index = [0, 0]
    ∧ ¬ ((dupState.allocMany [5, 6]).1.map GenIndex.index).Nodup :=
  ⟨reachable_dupState, rfl, rfl, by decide⟩

/-- C3 (amended): from every reachable allocator state whose free-list
contains no duplicate positions, a sequence of `allocate` calls with no
interleaved `deallocate` succeeds throughout and returns handles with
pairwise-distinct indices. -/
theorem c3_allocate_indices_distinct {T : Type} (a : GenIndexAllocator T)
    (vs : List T) (h : Reachable T a) (hnd : a.free_indices.Nodup) :
    ((a.allocMany vs).1.map GenIndex.index).Nodup
    ∧ (a.allocMany vs).1.length = vs.length := by
  obtain ⟨hb, hk⟩ := reachable_bounded_consistent h
  obtain ⟨h1, _, h3⟩ := GenIndexAllocator.allocMany_indices_nodup vs a hb hk hnd
  exact ⟨h1, h3⟩

/-- Witness for C3 at a concrete input: from `vacantState` (free-list
`[0]`, no duplicates), allocating twice yields distinct indices. -/
theorem c3_witness :
    Reachable Nat vacantState
    ∧ vacantState.free_indices.Nodup
    ∧ (((vacantState.allocMany [5, 6]).1.map GenIndex.index).Nodup
        ∧ (vacantState.allocMany [5, 6]).1.length = 2) :=
  ⟨reachable_vacantState, by decide,
    c3_allocate_indices_distinct vacantState [5, 6] reachable_vacantState (by decide)⟩

/-! ## Generation monotonicity -/

namespace GenIndexAllocator

theorem genAt_set_value {T : Type} {a : GenIndexAllocator T} {j : Nat}
    {ej : GenIndexEntry T} (hxj : a.entries[j]? = some ej) (w : Option T)
    (fi : List Nat) (i : Nat) :
    (GenIndexAllocator.mk (a.entries.set j { key := ej.key, value := w }) fi).genAt i
      = a.genAt i := by
  by_cases hij : i = j
  · subst hij
    unfold genAt
    rw [List.getElem?_set_eq_of_lt _ (lt_length_of_getElem?_eq_some hxj), hxj]
    rfl
  · unfold genAt
    rw [List.getElem?_set_ne (fun hc => hij hc.symm)]

theorem step_genAt_le_succ {T : Type} {a b : GenIndexAllocator T} (hs : Step T a b)
    (i : Nat) (g : Nat) (h : a.genAt i = some g) :
    b.genAt i = some g ∨ b.genAt i = some (g + 1) := by
  obtain ⟨e, hx, hge⟩ : ∃ e, a.entries[i]? = some e ∧ e.key.generation = g := by
    unfold genAt at h
    cases hx : a.entries[i]? with
    | none =>
        rw [hx] at h
        exact Option.noConfusion h
    | some e =>
        rw [hx] at h
        exact ⟨e, rfl, Option.some.inj h⟩
  have hlt := lt_length_of_getElem?_eq_some hx
  cases hs with
  | alloc v =>
      cases hf : a.free_indices with
      | nil =>
          rw [allocate_eq_of_nil v hf]
          refine Or.inl ?_
          unfold genAt
          rw [List.getElem?_append_left hlt, hx]
          exact congrArg some hge
      | cons j rest =>
          cases hxj : a.entries[j]? with
          | none =>
              rw [allocate_eq_of_cons_none v hf hxj]
              exact Or.inl h
          | some ej =>
              rw [allocate_eq_of_cons_some v hf hxj]
              by_cases hij : i = j
              · subst hij
                rw [hx] at hxj
                injection hxj with heq
                subst heq
                refine Or.inr ?_
                unfold genAt
                rw [List.getElem?_set_eq_of_lt _ hlt]
                show some (e.key.generation + 1) = some (g + 1)
                rw [hge]
              · refine Or.inl ?_
                unfold genAt
                rw [List.getElem?_set_ne (fun hc => hij hc.symm), hx]
                exact congrArg some hge
  | dealloc k =>
      cases hxk : a.entries[k.index]? with
      | none =>
          rw [deallocate_eq_of_none hxk]
          exact Or.inl h
      | some ek =>
          by_cases hg2 : ek.key.generation = k.generation
          · rw [deallocate_eq_of_match hxk hg2]
            refine Or.inl ?_
            rw [genAt_set_value hxk none _ i]
            exact h
          · rw [deallocate_eq_of_mismatch hxk hg2]
            exact Or.inl h
  | setOp k v =>
      cases hxk : a.entries[k.index]? with
      | none =>
          rw [set_eq_of_none v hxk]
          exact Or.inl h
      | some ek =>
          by_cases hg2 : ek.key.generation = k.generation
          · cases hv : ek.value with
            | none =>
                rw [set_eq_of_match_none v hxk hg2 hv]
                refine Or.inl ?_
                rw [genAt_set_value hxk (some v) _ i]
                exact h
            | some old =>
                rw [set_eq_of_match_some v hxk hg2 hv]
                refine Or.inl ?_
                rw [genAt_set_value hxk (some v) _ i]
                exact h
          · rw [set_eq_of_mismatch v hxk hg2]
            exact Or.inl h
  | mutOp k v =>
      cases hxk : a.entries[k.index]? with
      | none =>
          rw [get_mut_write_eq_of_none v hxk]
          exact Or.inl h
      | some ek =>
          by_cases hg2 : ek.key.generation = k.generation
          · cases hv : ek.value with
            | none =>
                rw [get_mut_write_eq_of_vacant v hxk hg2 hv]
                exact Or.inl h
            | some w =>
                rw [get_mut_write_eq_of_occupied v hxk hg2 hv]
                refine Or.inl ?_
                rw [genAt_set_value hxk (some v) _ i]
                exact h
          · rw [get_mut_write_eq_of_mismatch v hxk hg2]
            exact Or.inl h

theorem steps_genAt_le {T : Type} {a b : GenIndexAllocator T}
    (hs : Relation.ReflTransGen (Step T) a b) (i g : Nat)
    (h : a.genAt i = some g) : ∃ g2, b.genAt i = some g2 ∧ g ≤ g2 := by
  induction hs with
  | refl => exact ⟨g, h, Nat.le_refl g⟩
  | tail hab hstep ih =>
      obtain ⟨g1, hb1, hle⟩ := ih
      rcases step_genAt_le_succ hstep i g1 hb1 with h2 | h2
      · exact ⟨g1, h2, hle⟩
      · exact ⟨g1 + 1, h2, Nat.le_succ_of_le hle⟩

end GenIndexAllocator

/-- C9: a single public operation either keeps a slot's generation or
raises it by exactly 1 — so a slot's generation never decreases and only
ever changes by +1; the raise is exactly the reuse: an `allocate` that pops
position `i` stores generation `old + 1` there; and along any sequence of
operations a slot's generation is monotonically non-decreasing. -/
theorem c9_generation_monotonic :
    (∀ (T : Type) (a b : GenIndexAllocator T), Step T a b →
        ∀ i g, a.genAt i = some g →
          b.genAt i = some g ∨ b.genAt i = some (g + 1))
    ∧ (∀ (T : Type) (a : GenIndexAllocator T) (v : T) (i : Nat) (rest : List Nat)
        (e : GenIndexEntry T), a.free_indices = i :: rest → a.entries[i]? = some e →
          (a.allocate v).2.genAt i = some (e.key.generation + 1))
    ∧ (∀ (T : Type) (a b : GenIndexAllocator T), Relation.ReflTransGen (Step T) a b →
        ∀ i g g2, a.genAt i = some g → b.genAt i = some g2 → g ≤ g2) := by
  refine ⟨fun T a b hs i g h => GenIndexAllocator.step_genAt_le_succ hs i g h,
          fun T a v i rest e hf hx => ?_,
          fun T a b hs i g g2 h1 h2 => ?_⟩
  · rw [GenIndexAllocator.allocate_eq_of_cons_some v hf hx]
    unfold GenIndexAllocator.genAt
    rw [List.getElem?_set_eq_of_lt _ (lt_length_of_getElem?_eq_some hx)]
    rfl
  · obtain ⟨g3, h3, hle⟩ := GenIndexAllocator.steps_genAt_le hs i g h1
    rw [h2] at h3
    exact le_of_le_of_eq hle (Option.some.inj h3).symm

/-- Witness for C9 at a concrete input: reusing the freed slot 0 of
`vacantState` (generation 0) stores generation 1. -/
theorem c9_witness :
    vacantState.free_indices = 0 :: []
    ∧ vacantState.entries[(0 : Nat)]? =
        some { key := { index := 0, generation := 0 }, value := none }
    ∧ (vacantState.allocate 9).2.genAt 0 = some (0 + 1) :=
  ⟨rfl, rfl, c9_generation_monotonic.2.1 Nat vacantState 9 0 []
    { key := { index := 0, generation := 0 }, value := none } rfl rfl⟩

end GenInds
